import Mathlib

/-!
Verification of the NBA-Algo trend scripts.

The definitions below are shallow embeddings of the Python functions in the
repository (nba_trends_phase5_cached.py, nba_trends_phase4.py,
nba_trends_phase6_grouped.py, nba_trends_final.py,
nba_trends_parlays_final.py).  DataFrames of per-game rows become lists of
records, timestamps become rational numbers of hours, and the float hit
rates become exact rationals.  The theorems settle the specification
claims about the threshold scanner, the stat-window loader, the JSON
cache, and the odds line selection.
-/

/-! ## Data model -/

/-- Stat categories scanned by the trend scripts (keys of the CATEGORIES
and THRESHOLDS dictionaries).  TPM stands for the 3PM column. -/
inductive Cat
  | PTS | REB | AST | TPM | STL | BLK
deriving DecidableEq

/-- Threshold lists of nba_trends_phase5_cached.py (the CATEGORIES dict). -/
def CATEGORIES : Cat → List Int
  | Cat.PTS => [30, 25, 20, 15, 10]
  | Cat.REB => [12, 10, 8, 6]
  | Cat.AST => [10, 8, 6, 4]
  | Cat.TPM => [4, 3, 2, 1]
  | Cat.STL => [3, 2, 1]
  | Cat.BLK => [3, 2, 1]

/-- Threshold lists of nba_trends_phase6_grouped.py (its THRESHOLDS dict). -/
def THRESHOLDS_P6 : Cat → List Int
  | Cat.PTS => [30, 25, 20, 15, 10]
  | Cat.REB => [12, 10, 8, 6, 4]
  | Cat.AST => [9, 7, 5, 3]
  | Cat.TPM => [4, 3, 2, 1]
  | Cat.STL => [3, 2, 1]
  | Cat.BLK => [3, 2, 1]

/-- LOOKBACK of nba_trends_phase5_cached.py. -/
def LOOKBACK : Nat := 10

/-- NUM_GAMES of nba_trends_phase6_grouped.py. -/
def NUM_GAMES : Nat := 10

/-- MIN_HIT of nba_trends_phase5_cached.py (0.80), as an exact rational. -/
def MIN_HIT : ℚ := 80 / 100

/-- One row of a player game-log DataFrame: the GAME_DATE column (as a day
number), the MIN column, and the six stat columns used by the scripts. -/
structure GameRec where
  date : Nat
  MIN : Nat
  pts : Int
  reb : Int
  ast : Int
  tpm : Int
  stl : Int
  blk : Int
deriving DecidableEq

/-- Column lookup df[cat] for one row. -/
def statOf (r : GameRec) : Cat → Int
  | Cat.PTS => r.pts
  | Cat.REB => r.reb
  | Cat.AST => r.ast
  | Cat.TPM => r.tpm
  | Cat.STL => r.stl
  | Cat.BLK => r.blk

/-! ## Threshold scanner (best_hit / best_line_for_category / best_line) -/

/-- Hit count for one threshold: the expression (df[cat] >= lvl).sum(). -/
def countHits (vals : List Int) (lvl : Int) : Nat :=
  vals.countP (fun v => lvl ≤ v)

/-- Body of the threshold loop shared by best_hit, best_line_for_category
and best_line.  The loop ends with an unconditional break, so only the
first threshold of the list is ever examined: on success it returns the
triple, otherwise it returns None without looking at the tail. -/
def scanThresholds (vals : List Int) (total : Nat) (minHit : ℚ) :
    List Int → Option (Int × Nat × ℚ)
  | [] => none
  | lvl :: _ =>
      let hits := countHits vals lvl
      let rate : ℚ := (hits : ℚ) / (total : ℚ)
      if minHit ≤ rate then some (lvl, hits, rate) else none

/-- Function best_hit of nba_trends_phase5_cached.py, generalized over the
threshold list (the script passes CATEGORIES[cat]). -/
def best_hit_list (vals : List Int) (thresholds : List Int) :
    Option (Int × Nat × ℚ) :=
  if vals.length = 0 then none
  else scanThresholds vals vals.length MIN_HIT thresholds

/-- Function best_hit of nba_trends_phase5_cached.py as called by main. -/
def best_hit (df : List GameRec) (cat : Cat) : Option (Int × Nat × ℚ) :=
  best_hit_list (df.map (fun r => statOf r cat)) (CATEGORIES cat)

/-- Function best_line of nba_trends_phase6_grouped.py: it refuses windows
shorter than NUM_GAMES, then runs the same single-iteration loop. -/
def best_line (df : List GameRec) (cat : Cat) : Option (Int × Nat × ℚ) :=
  if df.length < NUM_GAMES then none
  else scanThresholds (df.map (fun r => statOf r cat)) df.length (80 / 100)
    (THRESHOLDS_P6 cat)

/-- Descending order for a threshold list. -/
def sortedDescInt (l : List Int) : Prop :=
  l.Pairwise (fun a b => b ≤ a)

instance (l : List Int) : Decidable (sortedDescInt l) :=
  inferInstanceAs (Decidable (l.Pairwise (fun a b => b ≤ a)))

/-- C1: Stop-on-first-miss scanner policy: for every non-empty StatWindow
and descending threshold list, if the first (highest) threshold misses the
minimum hit rate, the scanner returns no result, and the outcome does not
depend on the rest of the list, so lower thresholds are never examined. -/
theorem best_hit_stop_on_first_miss
    (vals : List Int) (t : Int) (rest : List Int)
    (hne : vals ≠ [])
    (hsorted : sortedDescInt (t :: rest))
    (hfail : ((countHits vals t : ℚ) / (vals.length : ℚ)) < MIN_HIT) :
    best_hit_list vals (t :: rest) = none ∧
    ∀ rest' : List Int,
      best_hit_list vals (t :: rest') = best_hit_list vals (t :: rest) := by
  have hlen : ¬ vals.length = 0 := fun h => hne (List.length_eq_zero.mp h)
  have hnone : ∀ r : List Int, best_hit_list vals (t :: r) = none := by
    intro r
    simp only [best_hit_list, scanThresholds]
    rw [if_neg hlen, if_neg (not_le.mpr hfail)]
  exact ⟨hnone rest, fun rest' => by rw [hnone rest', hnone rest]⟩

/-- Witness for C1: a window of ten games all worth 20 points misses the
top threshold 30 (rate 0), and the scanner ignores the later threshold 15
even though its rate 1 would qualify. -/
theorem best_hit_stop_on_first_miss_witness :
    best_hit_list [20, 20, 20, 20, 20, 20, 20, 20, 20, 20] [30, 15] = none ∧
    (80 : ℚ) / 100 ≤
      (countHits [20, 20, 20, 20, 20, 20, 20, 20, 20, 20] 15 : ℚ) / 10 := by
  constructor
  · exact (best_hit_stop_on_first_miss
      [20, 20, 20, 20, 20, 20, 20, 20, 20, 20] 30 [15]
      (by decide) (by decide)
      (by norm_num [countHits, MIN_HIT, List.countP, List.countP.go])).1
  · norm_num [countHits, List.countP, List.countP.go]

/-- C2: whenever the scanner returns (threshold, hits, rate) on a
descending list, that threshold belongs to the list, is the highest member
whose hit rate meets the minimum, hits counts the games at or above it,
and rate is hits divided by the window size. -/
theorem best_hit_returns_highest_qualifying
    (vals : List Int) (ts : List Int) (lvl : Int) (hits : Nat) (rate : ℚ)
    (hlen : 0 < vals.length)
    (hsorted : sortedDescInt ts)
    (hres : best_hit_list vals ts = some (lvl, hits, rate)) :
    lvl ∈ ts ∧
    hits = countHits vals lvl ∧
    rate = (hits : ℚ) / (vals.length : ℚ) ∧
    MIN_HIT ≤ rate ∧
    ∀ t ∈ ts, MIN_HIT ≤ (countHits vals t : ℚ) / (vals.length : ℚ) → t ≤ lvl := by
  have hlen' : ¬ vals.length = 0 := Nat.pos_iff_ne_zero.mp hlen
  cases ts with
  | nil =>
      exfalso
      simp only [best_hit_list, scanThresholds] at hres
      rw [if_neg hlen'] at hres
      exact Option.noConfusion hres
  | cons t rest =>
      simp only [best_hit_list, scanThresholds] at hres
      rw [if_neg hlen'] at hres
      by_cases hq : MIN_HIT ≤ (countHits vals t : ℚ) / (vals.length : ℚ)
      · rw [if_pos hq] at hres
        obtain ⟨h1, h2, h3⟩ : t = lvl ∧ countHits vals t = hits ∧
            (countHits vals t : ℚ) / (vals.length : ℚ) = rate := by
          have := Option.some.inj hres
          exact ⟨congrArg Prod.fst this,
            congrArg (fun p => p.2.1) this, congrArg (fun p => p.2.2) this⟩
        subst h1; subst h2
        refine ⟨List.mem_cons_self _ _, rfl, h3.symm, h3 ▸ hq, ?_⟩
        intro u hu _
        rcases List.mem_cons.mp hu with h | h
        · exact le_of_eq h
        · exact (List.pairwise_cons.mp hsorted).1 u h
      · rw [if_neg hq] at hres
        exact absurd hres (by simp)

/-- Witness for C2: five games of 20 points against the descending list
[18, 10]; the scanner returns threshold 18 with 5 hits and rate 1. -/
theorem best_hit_returns_highest_qualifying_witness :
    18 ∈ ([18, 10] : List Int) ∧
    (5 : Nat) = countHits [20, 20, 20, 20, 20] 18 ∧
    (1 : ℚ) = ((5 : Nat) : ℚ) / ((5 : Nat) : ℚ) ∧
    MIN_HIT ≤ (1 : ℚ) ∧
    ∀ t ∈ ([18, 10] : List Int),
      MIN_HIT ≤ (countHits [20, 20, 20, 20, 20] t : ℚ) / (5 : ℚ) → t ≤ 18 := by
  have h := best_hit_returns_highest_qualifying
    [20, 20, 20, 20, 20] [18, 10] 18 5 1 (by decide) (by decide)
    (by norm_num [best_hit_list, scanThresholds, countHits, MIN_HIT,
      List.countP, List.countP.go])
  refine ⟨h.1, h.2.1, ?_, h.2.2.2.1, ?_⟩
  · norm_num
  · intro t ht hrate
    exact h.2.2.2.2 t ht (by exact_mod_cast hrate)

/-- C8: the empty window yields no result from either scanner variant,
rather than a division-by-zero error. -/
theorem scanner_empty_window_none (cat : Cat) :
    best_hit [] cat = none ∧ best_line [] cat = none := by
  cases cat <;> exact ⟨rfl, rfl⟩

/-- C10: the hit count and hence the hit rate are antitone in the
threshold, and on a descending threshold list a qualifying first threshold
forces every later one to qualify as well. -/
theorem countHits_antitone (vals : List Int) :
    (∀ t1 t2 : Int, t2 ≤ t1 → countHits vals t1 ≤ countHits vals t2) ∧
    (∀ t1 t2 : Int, t2 ≤ t1 →
      (countHits vals t1 : ℚ) / (vals.length : ℚ) ≤
        (countHits vals t2 : ℚ) / (vals.length : ℚ)) ∧
    (∀ (t : Int) (rest : List Int), sortedDescInt (t :: rest) →
      MIN_HIT ≤ (countHits vals t : ℚ) / (vals.length : ℚ) →
      ∀ u ∈ t :: rest,
        MIN_HIT ≤ (countHits vals u : ℚ) / (vals.length : ℚ)) := by
  have hcount : ∀ t1 t2 : Int, t2 ≤ t1 →
      countHits vals t1 ≤ countHits vals t2 := by
    intro t1 t2 h
    exact List.countP_mono_left (fun v _ hv =>
      decide_eq_true (le_trans h (of_decide_eq_true hv)))
  have hrate : ∀ t1 t2 : Int, t2 ≤ t1 →
      (countHits vals t1 : ℚ) / (vals.length : ℚ) ≤
        (countHits vals t2 : ℚ) / (vals.length : ℚ) := by
    intro t1 t2 h
    have hc : (countHits vals t1 : ℚ) ≤ (countHits vals t2 : ℚ) := by
      exact_mod_cast hcount t1 t2 h
    exact div_le_div_of_nonneg_right hc (Nat.cast_nonneg _)
  refine ⟨hcount, hrate, ?_⟩
  intro t rest hsorted hfirst u hu
  rcases List.mem_cons.mp hu with h | h
  · exact h ▸ hfirst
  · exact le_trans hfirst (hrate t u ((List.pairwise_cons.mp hsorted).1 u h))

/-- Witness for C10: on the window [30, 20, 10], three hits at threshold
10 dominate one hit at threshold 25, and a qualifying head threshold 5 of
the descending list [5, 3] makes the later threshold 3 qualify too. -/
theorem countHits_antitone_witness :
    countHits [30, 20, 10] 25 ≤ countHits [30, 20, 10] 10 ∧
    (countHits [30, 20, 10] 25 : ℚ) / 3 ≤ (countHits [30, 20, 10] 10 : ℚ) / 3 ∧
    MIN_HIT ≤ (countHits [30, 20, 10] 3 : ℚ) / 3 := by
  have h := countHits_antitone [30, 20, 10]
  have hlen : (([30, 20, 10] : List Int).length : ℚ) = 3 := by decide
  refine ⟨h.1 25 10 (by decide), ?_, ?_⟩
  · have := h.2.1 25 10 (by decide)
    rwa [hlen] at this
  · have := h.2.2 5 [3] (by decide)
      (by norm_num [countHits, MIN_HIT, List.countP, List.countP.go]) 3
      (by decide)
    rwa [hlen] at this

/-! ## Stat-window loader (fetch_player_logs / get_player_logs) -/

/-- Descending GAME_DATE order used by sort_values with ascending False. -/
def dateDesc (a b : GameRec) : Prop := b.date ≤ a.date

instance : DecidableRel dateDesc := fun a b => Nat.decLe b.date a.date

instance : IsTotal GameRec dateDesc :=
  ⟨fun a b => le_total b.date a.date⟩

instance : IsTrans GameRec dateDesc :=
  ⟨fun _ _ _ h1 h2 => le_trans h2 h1⟩

/-- Row filter part[part["MIN"] > 0], dropping did-not-play records. -/
def filterMin (s : List GameRec) : List GameRec :=
  s.filter (fun r => 0 < r.MIN)

/-- Season loop of fetch_player_logs: each season contributes its filtered
rows to the accumulator, and the loop breaks early once at least LOOKBACK
rows are accumulated. -/
def collectLogs : List GameRec → List (List GameRec) → List GameRec
  | acc, [] => acc
  | acc, s :: rest =>
      let acc2 := acc ++ filterMin s
      if LOOKBACK ≤ acc2.length then acc2 else collectLogs acc2 rest

/-- Function fetch_player_logs of nba_trends_phase5_cached.py: collect the
per-season rows (with the early break), return empty if nothing was
collected, otherwise sort by GAME_DATE descending and keep the first
LOOKBACK rows.  The input is the per-season data the NBA API returns; a
season whose fetch raises is its empty list. -/
def fetch_player_logs (seasons : List (List GameRec)) : List GameRec :=
  let df_all := collectLogs [] seasons
  if df_all = [] then df_all
  else (df_all.insertionSort dateDesc).take LOOKBACK

/-- Membership in the MIN filter implies nonzero minutes. -/
theorem filterMin_pos {s : List GameRec} {r : GameRec}
    (h : r ∈ filterMin s) : 0 < r.MIN := by
  have h2 : r ∈ s.filter (fun r => decide (0 < r.MIN)) := by
    simpa [filterMin] using h
  exact of_decide_eq_true (List.mem_filter.mp h2).2

/-- Every row the season loop accumulates beyond the initial accumulator
passed the MIN filter. -/
theorem collectLogs_mem (seasons : List (List GameRec)) :
    ∀ acc : List GameRec, ∀ r ∈ collectLogs acc seasons,
      r ∈ acc ∨ 0 < r.MIN := by
  induction seasons with
  | nil => intro acc r hr; exact Or.inl hr
  | cons s rest ih =>
      intro acc r hr
      simp only [collectLogs] at hr
      by_cases hbr : LOOKBACK ≤ (acc ++ filterMin s).length
      · rw [if_pos hbr] at hr
        rcases List.mem_append.mp hr with h | h
        · exact Or.inl h
        · exact Or.inr (filterMin_pos h)
      · rw [if_neg hbr] at hr
        rcases ih (acc ++ filterMin s) r hr with h | h
        · rcases List.mem_append.mp h with h' | h'
          · exact Or.inl h'
          · exact Or.inr (filterMin_pos h')
        · exact Or.inr h

/-- When all qualifying rows together with the accumulator fit under
LOOKBACK, the early break never truncates: the loop returns the
accumulator followed by every qualifying row. -/
theorem collectLogs_all (seasons : List (List GameRec)) :
    ∀ acc : List GameRec,
      (acc ++ filterMin seasons.flatten).length ≤ LOOKBACK →
      collectLogs acc seasons = acc ++ filterMin seasons.flatten := by
  induction seasons with
  | nil =>
      intro acc _
      simp [collectLogs, filterMin]
  | cons s rest ih =>
      intro acc hle
      have hflat : filterMin ((s :: rest).flatten) =
          filterMin s ++ filterMin rest.flatten := by
        simp [filterMin, List.flatten_cons, List.filter_append]
      rw [hflat] at hle ⊢
      simp only [collectLogs]
      by_cases hbr : LOOKBACK ≤ (acc ++ filterMin s).length
      · rw [if_pos hbr]
        have h1 : (acc ++ filterMin s).length +
            (filterMin rest.flatten).length ≤ LOOKBACK := by
          simpa [List.length_append, Nat.add_assoc] using hle
        have h2 : (filterMin rest.flatten).length = 0 := by omega
        have h3 : filterMin rest.flatten = [] := List.length_eq_zero.mp h2
        simp [h3]
      · rw [if_neg hbr]
        have := ih (acc ++ filterMin s)
          (by simpa [List.length_append, Nat.add_assoc] using hle)
        rw [this, List.append_assoc]

/-- C3: the stat-window loader returns at most LOOKBACK rows, sorted by
date descending, all with nonzero minutes; and whenever at most LOOKBACK
qualifying rows exist across the seasons, it returns exactly the
qualifying rows (as a permutation, hence all of them), newest first,
without any error path. -/
theorem fetch_player_logs_spec (seasons : List (List GameRec)) :
    (fetch_player_logs seasons).length ≤ LOOKBACK ∧
    (fetch_player_logs seasons).Pairwise dateDesc ∧
    (∀ r ∈ fetch_player_logs seasons, 0 < r.MIN) ∧
    ((filterMin seasons.flatten).length ≤ LOOKBACK →
      List.Perm (fetch_player_logs seasons) (filterMin seasons.flatten)) := by
  by_cases hemp : collectLogs [] seasons = []
  · have hfe : fetch_player_logs seasons = [] := by
      simp [fetch_player_logs, hemp]
    refine ⟨by simp [hfe], by simp [hfe], by simp [hfe], ?_⟩
    intro hlen
    have h0 := collectLogs_all seasons [] (by simpa using hlen)
    rw [hemp] at h0
    have h1 : filterMin seasons.flatten = [] := by simpa using h0.symm
    rw [hfe, h1]
  · have hfe : fetch_player_logs seasons =
        ((collectLogs [] seasons).insertionSort dateDesc).take LOOKBACK := by
      simp [fetch_player_logs, hemp]
    have hsorted : ((collectLogs [] seasons).insertionSort dateDesc).Pairwise
        dateDesc := List.sorted_insertionSort dateDesc _
    have htake : (((collectLogs [] seasons).insertionSort dateDesc).take
        LOOKBACK).Sublist ((collectLogs [] seasons).insertionSort dateDesc) :=
      List.take_sublist _ _
    refine ⟨?_, ?_, ?_, ?_⟩
    · rw [hfe]; exact (List.length_take_le _ _)
    · rw [hfe]; exact List.Pairwise.sublist htake hsorted
    · intro r hr
      rw [hfe] at hr
      have hr2 : r ∈ (collectLogs [] seasons).insertionSort dateDesc :=
        htake.mem hr
      have hr3 : r ∈ collectLogs [] seasons :=
        (List.mem_insertionSort dateDesc).mp hr2
      rcases collectLogs_mem seasons [] r hr3 with h | h
      · exact absurd h (List.not_mem_nil r)
      · exact h
    · intro hlen
      have hall : collectLogs [] seasons = filterMin seasons.flatten := by
        simpa using collectLogs_all seasons [] (by simpa using hlen)
      have hperm : List.Perm ((collectLogs [] seasons).insertionSort dateDesc)
          (collectLogs [] seasons) := List.perm_insertionSort dateDesc _
      have hlen2 : ((collectLogs [] seasons).insertionSort dateDesc).length ≤
          LOOKBACK := by
        rw [hperm.length_eq, hall]; exact hlen
      rw [hfe, List.take_of_length_le hlen2]
      exact hperm.trans (by rw [hall])

/-- Witness for C3: twelve raw records split over two seasons, two of them
with zero minutes; the loader returns all ten qualifying records, newest
first, as a permutation of the qualifying rows. -/
theorem fetch_player_logs_spec_witness :
    (fetch_player_logs
        [[⟨12, 30, 25, 5, 4, 2, 1, 0⟩, ⟨11, 0, 0, 0, 0, 0, 0, 0⟩,
          ⟨10, 28, 20, 6, 3, 1, 0, 1⟩, ⟨9, 31, 18, 7, 2, 2, 1, 1⟩,
          ⟨8, 29, 22, 4, 5, 3, 0, 0⟩, ⟨7, 0, 0, 0, 0, 0, 0, 0⟩],
         [⟨6, 33, 27, 8, 1, 4, 2, 0⟩, ⟨5, 26, 15, 5, 6, 1, 1, 2⟩,
          ⟨4, 35, 30, 9, 2, 5, 0, 1⟩, ⟨3, 24, 12, 3, 7, 0, 2, 0⟩,
          ⟨2, 32, 24, 6, 4, 2, 1, 1⟩, ⟨1, 27, 19, 5, 3, 1, 0, 0⟩]]).length ≤
      LOOKBACK ∧
    List.Perm
      (fetch_player_logs
        [[⟨12, 30, 25, 5, 4, 2, 1, 0⟩, ⟨11, 0, 0, 0, 0, 0, 0, 0⟩,
          ⟨10, 28, 20, 6, 3, 1, 0, 1⟩, ⟨9, 31, 18, 7, 2, 2, 1, 1⟩,
          ⟨8, 29, 22, 4, 5, 3, 0, 0⟩, ⟨7, 0, 0, 0, 0, 0, 0, 0⟩],
         [⟨6, 33, 27, 8, 1, 4, 2, 0⟩, ⟨5, 26, 15, 5, 6, 1, 1, 2⟩,
          ⟨4, 35, 30, 9, 2, 5, 0, 1⟩, ⟨3, 24, 12, 3, 7, 0, 2, 0⟩,
          ⟨2, 32, 24, 6, 4, 2, 1, 1⟩, ⟨1, 27, 19, 5, 3, 1, 0, 0⟩]])
      (filterMin
        [[⟨12, 30, 25, 5, 4, 2, 1, 0⟩, ⟨11, 0, 0, 0, 0, 0, 0, 0⟩,
          ⟨10, 28, 20, 6, 3, 1, 0, 1⟩, ⟨9, 31, 18, 7, 2, 2, 1, 1⟩,
          ⟨8, 29, 22, 4, 5, 3, 0, 0⟩, ⟨7, 0, 0, 0, 0, 0, 0, 0⟩],
         [⟨6, 33, 27, 8, 1, 4, 2, 0⟩, ⟨5, 26, 15, 5, 6, 1, 1, 2⟩,
          ⟨4, 35, 30, 9, 2, 5, 0, 1⟩, ⟨3, 24, 12, 3, 7, 0, 2, 0⟩,
          ⟨2, 32, 24, 6, 4, 2, 1, 1⟩, ⟨1, 27, 19, 5, 3, 1, 0, 0⟩]].flatten) := by
  refine ⟨(fetch_player_logs_spec _).1, (fetch_player_logs_spec _).2.2.2 ?_⟩
  decide

/-! ## Freshness-checked cache (load_cached_logs / get_player_logs /
is_cache_valid) -/

/-- CACHE_MAX_AGE_HOURS of nba_trends_phase5_cached.py. -/
def CACHE_MAX_AGE_HOURS : ℚ := 24

/-- CACHE_EXPIRY_HOURS of nba_trends_final.py and
nba_trends_parlays_final.py. -/
def CACHE_EXPIRY_HOURS : ℚ := 24

/-- One cache file of nba_trends_phase5_cached.py: the updated field holds
the write date string, parsed back as midnight of the write day, here a
timestamp in hours. -/
structure CacheEntry where
  updated : ℚ
  logs : List GameRec

/-- Function load_cached_logs of nba_trends_phase5_cached.py: a missing
file gives an empty frame, an entry older than CACHE_MAX_AGE_HOURS gives
an empty frame, otherwise the stored logs sorted by date descending. -/
def load_cached_logs (now : ℚ) (entry : Option CacheEntry) : List GameRec :=
  match entry with
  | none => []
  | some e =>
      if CACHE_MAX_AGE_HOURS < now - e.updated then []
      else e.logs.insertionSort dateDesc

/-- Function newest_game_date: the max of GAME_DATE, None on an empty
frame. -/
def newest_game_date (df : List GameRec) : Option Nat :=
  if df = [] then none else (df.map (fun r => r.date)).max?

/-- Condition under which get_player_logs returns the cached frame: the
frame is non-empty and its newest game date is today or later. -/
def useCache (cached : List GameRec) (today : Nat) : Bool :=
  !cached.isEmpty &&
    match newest_game_date cached with
    | some d => decide (today ≤ d)
    | none => false

/-- Function get_player_logs of nba_trends_phase5_cached.py.  The first
component is the returned frame; the second records the save_cached_logs
write-back (none when nothing is written).  On a miss it fetches and
writes the result back only when the fetch result is non-empty. -/
def get_player_logs_model (now : ℚ) (today : Nat) (entry : Option CacheEntry)
    (seasons : List (List GameRec)) : List GameRec × Option (List GameRec) :=
  let cached := load_cached_logs now entry
  if useCache cached today then (cached, none)
  else
    let fresh := fetch_player_logs seasons
    (fresh, if fresh = [] then none else some fresh)

/-- Function is_cache_valid of nba_trends_final.py and
nba_trends_parlays_final.py: the file exists and its modification time is
less than CACHE_EXPIRY_HOURS old. -/
def is_cache_valid (mtime : Option ℚ) (now : ℚ) : Bool :=
  match mtime with
  | none => false
  | some t => decide (now - t < CACHE_EXPIRY_HOURS)

/-- The loaded frame is non-empty exactly when the entry exists, is within
the expiry, and stores a non-empty log list. -/
theorem load_cached_logs_ne_nil_iff (now : ℚ) (entry : Option CacheEntry) :
    load_cached_logs now entry ≠ [] ↔
      ∃ e, entry = some e ∧ now - e.updated ≤ CACHE_MAX_AGE_HOURS ∧
        e.logs ≠ [] := by
  cases entry with
  | none => simp [load_cached_logs]
  | some e =>
      simp only [load_cached_logs]
      by_cases h : CACHE_MAX_AGE_HOURS < now - e.updated
      · rw [if_pos h]
        simp only [ne_eq, not_true_eq_false, false_iff]
        rintro ⟨e', he', hage, _⟩
        rw [Option.some.inj he'] at h
        exact absurd hage (not_le.mpr h)
      · rw [if_neg h]
        constructor
        · intro hne
          refine ⟨e, rfl, not_lt.mp h, ?_⟩
          intro hnil
          rw [hnil] at hne
          exact hne rfl
        · rintro ⟨e', he', _, hlogs⟩
          rw [Option.some.inj he']
          intro hnil
          have : e'.logs.length = 0 := by
            have := congrArg List.length hnil
            simpa [(List.perm_insertionSort dateDesc e'.logs).length_eq]
              using this
          exact hlogs (List.length_eq_zero.mp this)

/-- Unfolding of the cache-hit condition. -/
theorem useCache_true_iff (cached : List GameRec) (today : Nat) :
    useCache cached today = true ↔
      cached ≠ [] ∧ ∃ d, newest_game_date cached = some d ∧ today ≤ d := by
  cases hnew : newest_game_date cached with
  | none =>
      have hc : cached = [] := by
        by_contra hne
        have : (cached.map (fun r => r.date)).max? = none := by
          simpa [newest_game_date, hne] using hnew
        have h2 : cached.map (fun r => r.date) = [] :=
          List.max?_eq_none_iff.mp this
        exact hne (List.map_eq_nil.mp h2)
      subst hc
      simp [useCache, newest_game_date]
  | some d =>
      have hc : cached ≠ [] := by
        intro h
        rw [h] at hnew
        simp [newest_game_date] at hnew
      simp only [useCache, hnew, Bool.and_eq_true, Bool.not_eq_true',
        List.isEmpty_eq_false_iff_exists_mem, decide_eq_true_eq]
      constructor
      · rintro ⟨_, hd⟩
        exact ⟨hc, d, rfl, hd⟩
      · rintro ⟨_, d', hd', hle⟩
        have : d' = d := Option.some.inj (hd' ▸ rfl)
        refine ⟨?_, this ▸ hle⟩
        rcases cached with _ | ⟨a, l⟩
        · exact absurd rfl hc
        · exact ⟨a, List.mem_cons_self a l⟩

/-- C4 counterexample: a one-hour-old entry (age below the 24 hour expiry,
so the first disjunct of the claim holds and the claim promises a hit)
whose newest cached game, day 0, is older than today, day 5: the code
takes the fetch path and returns the empty fetch result instead of the
non-empty cached frame. -/
theorem cache_hit_disjunction_counterexample :
    (1 : ℚ) - 0 ≤ CACHE_MAX_AGE_HOURS ∧
    load_cached_logs 1 (some ⟨0, [⟨0, 30, 10, 5, 3, 1, 1, 0⟩]⟩) =
      [⟨0, 30, 10, 5, 3, 1, 1, 0⟩] ∧
    get_player_logs_model 1 5 (some ⟨0, [⟨0, 30, 10, 5, 3, 1, 1, 0⟩]⟩) [] =
      ([], none) := by
  have hload : load_cached_logs 1 (some ⟨0, [⟨0, 30, 10, 5, 3, 1, 1, 0⟩]⟩) =
      [⟨0, 30, 10, 5, 3, 1, 1, 0⟩] := by
    norm_num [load_cached_logs, CACHE_MAX_AGE_HOURS]
  refine ⟨by norm_num [CACHE_MAX_AGE_HOURS], hload, ?_⟩
  rw [get_player_logs_model, hload]
  norm_num [useCache, newest_game_date, fetch_player_logs, collectLogs]

/-- C4 amended: get_player_logs returns the cached frame (with no
write-back) exactly when the entry exists, its age is within the expiry,
its stored logs are non-empty, and the newest cached game date is today or
later — the conjunction of the freshness and recency conditions, not
either one alone. -/
theorem get_player_logs_hit_iff (now : ℚ) (today : Nat)
    (entry : Option CacheEntry) (seasons : List (List GameRec)) :
    (get_player_logs_model now today entry seasons =
        (load_cached_logs now entry, none) ∧
      load_cached_logs now entry ≠ []) ↔
    ((∃ e, entry = some e ∧ now - e.updated ≤ CACHE_MAX_AGE_HOURS ∧
        e.logs ≠ []) ∧
      ∃ d, newest_game_date (load_cached_logs now entry) = some d ∧
        today ≤ d) := by
  by_cases hu : useCache (load_cached_logs now entry) today = true
  · have hres : get_player_logs_model now today entry seasons =
        (load_cached_logs now entry, none) := by
      simp [get_player_logs_model, hu]
    obtain ⟨hne, hd⟩ := (useCache_true_iff _ _).mp hu
    constructor
    · intro _
      exact ⟨(load_cached_logs_ne_nil_iff now entry).mp hne, hd⟩
    · intro _
      exact ⟨hres, hne⟩
  · have hu' : useCache (load_cached_logs now entry) today = false :=
      Bool.not_eq_true _ ▸ eq_false_of_ne_true hu
    constructor
    · rintro ⟨heq, hne⟩
      exfalso
      have heq' : (fetch_player_logs seasons,
          (if fetch_player_logs seasons = [] then (none : Option (List GameRec))
            else some (fetch_player_logs seasons))) =
          (load_cached_logs now entry, none) := by
        rw [← heq]
        simp [get_player_logs_model, hu']
      have h1 : fetch_player_logs seasons = load_cached_logs now entry :=
        congrArg Prod.fst heq'
      have h2 : (if fetch_player_logs seasons = [] then
          (none : Option (List GameRec))
          else some (fetch_player_logs seasons)) = none :=
        congrArg Prod.snd heq'
      by_cases hf : fetch_player_logs seasons = []
      · exact hne (h1.symm.trans hf)
      · rw [if_neg hf] at h2
        exact Option.noConfusion h2
    · rintro ⟨he, hd⟩
      exfalso
      have hne : load_cached_logs now entry ≠ [] :=
        (load_cached_logs_ne_nil_iff now entry).mpr he
      have : useCache (load_cached_logs now entry) today = true :=
        (useCache_true_iff _ _).mpr ⟨hne, hd⟩
      rw [hu'] at this
      exact Bool.noConfusion this

/-- C5 counterexample: an entry written at hour 38 (day 1 at 14:00) and
consulted 23 hours later at hour 61.  The claim says every freshness check
treats it as valid; the mtime-based is_cache_valid does, but
load_cached_logs parses the stored date string back as midnight of day 1
(hour 24), computes an age of 37 hours, and treats the entry as stale. -/
theorem cache_expiry_timing_counterexample :
    is_cache_valid (some 38) (38 + 23) = true ∧
    load_cached_logs (38 + 23) (some ⟨24, [⟨0, 30, 10, 5, 3, 1, 1, 0⟩]⟩) =
      [] := by
  constructor
  · norm_num [is_cache_valid, CACHE_EXPIRY_HOURS]
  · norm_num [load_cached_logs, CACHE_MAX_AGE_HOURS]

/-- C5 amended: for an entry written at time T = 24 d + off (day d, hour
offset off), the mtime-based check is_cache_valid is valid at T+23h and
stale at T+25h regardless of the time of day; the date-string check of
load_cached_logs is always stale at T+25h, and at T+23h it yields the
cached frame when T falls in the first hour of its day (off at most 1) and
discards the entry as stale for every later offset, because it measures
age from midnight of the write day. -/
theorem cache_expiry_timing (d : ℤ) (off : ℚ) (logs : List GameRec)
    (h0 : 0 ≤ off) (h24 : off < 24) :
    (is_cache_valid (some (24 * (d : ℚ) + off)) (24 * (d : ℚ) + off + 23) =
        true ∧
      is_cache_valid (some (24 * (d : ℚ) + off)) (24 * (d : ℚ) + off + 25) =
        false) ∧
    load_cached_logs (24 * (d : ℚ) + off + 25) (some ⟨24 * (d : ℚ), logs⟩) =
      [] ∧
    (off ≤ 1 →
      load_cached_logs (24 * (d : ℚ) + off + 23) (some ⟨24 * (d : ℚ), logs⟩) =
        logs.insertionSort dateDesc) ∧
    (1 < off →
      load_cached_logs (24 * (d : ℚ) + off + 23) (some ⟨24 * (d : ℚ), logs⟩) =
        []) := by
  refine ⟨⟨?_, ?_⟩, ?_, ?_, ?_⟩
  · have h : 24 * (d : ℚ) + off + 23 - (24 * (d : ℚ) + off) = 23 := by ring
    simp only [is_cache_valid, CACHE_EXPIRY_HOURS, h]
    norm_num
  · have h : 24 * (d : ℚ) + off + 25 - (24 * (d : ℚ) + off) = 25 := by ring
    simp only [is_cache_valid, CACHE_EXPIRY_HOURS, h]
    norm_num
  · have h : 24 * (d : ℚ) + off + 25 - 24 * (d : ℚ) = off + 25 := by ring
    simp only [load_cached_logs, CACHE_MAX_AGE_HOURS, h]
    rw [if_pos (by linarith)]
  · intro h1
    have h : 24 * (d : ℚ) + off + 23 - 24 * (d : ℚ) = off + 23 := by ring
    simp only [load_cached_logs, CACHE_MAX_AGE_HOURS, h]
    rw [if_neg (by linarith)]
  · intro h1
    have h : 24 * (d : ℚ) + off + 23 - 24 * (d : ℚ) = off + 23 := by ring
    simp only [load_cached_logs, CACHE_MAX_AGE_HOURS, h]
    rw [if_pos (by linarith)]

/-- Witness for C5 amended: day 0 with a half-hour offset, valid at T+23h
under both checks and stale at T+25h; and day 1 with a 14-hour offset,
where the date-string check is already stale at T+23h. -/
theorem cache_expiry_timing_witness :
    (is_cache_valid (some (24 * ((0 : ℤ) : ℚ) + 1 / 2))
        (24 * ((0 : ℤ) : ℚ) + 1 / 2 + 23) = true ∧
      is_cache_valid (some (24 * ((0 : ℤ) : ℚ) + 1 / 2))
        (24 * ((0 : ℤ) : ℚ) + 1 / 2 + 25) = false) ∧
    load_cached_logs (24 * ((0 : ℤ) : ℚ) + 1 / 2 + 25)
      (some ⟨24 * ((0 : ℤ) : ℚ), []⟩) = [] ∧
    load_cached_logs (24 * ((0 : ℤ) : ℚ) + 1 / 2 + 23)
      (some ⟨24 * ((0 : ℤ) : ℚ), []⟩) =
      List.insertionSort dateDesc [] ∧
    load_cached_logs (24 * ((1 : ℤ) : ℚ) + 14 + 23)
      (some ⟨24 * ((1 : ℤ) : ℚ), [⟨0, 30, 10, 5, 3, 1, 1, 0⟩]⟩) = [] := by
  have h := cache_expiry_timing 0 (1 / 2) [] (by norm_num) (by norm_num)
  have h2 := cache_expiry_timing 1 14 [⟨0, 30, 10, 5, 3, 1, 1, 0⟩]
    (by norm_num) (by norm_num)
  exact ⟨h.1, h.2.1, h.2.2.1 (by norm_num), h2.2.2.2 (by norm_num)⟩

/-- C6 counterexample: a cache miss (no entry on disk) whose fetch returns
the empty frame; the claim says the result is written back with no
exception for empty results, but the code guards the write-back with a
non-empty test and writes nothing. -/
theorem writeback_unconditional_counterexample :
    load_cached_logs 0 none = [] ∧
    fetch_player_logs ([] : List (List GameRec)) = [] ∧
    (get_player_logs_model 0 0 none []).2 = none :=
  ⟨rfl, rfl, rfl⟩

/-- C6 amended: on every cache miss the fetch result is written back via
save_cached_logs exactly when it is non-empty; an empty fetch result is
returned to the caller but never written to the cache. -/
theorem writeback_only_nonempty (now : ℚ) (today : Nat)
    (entry : Option CacheEntry) (seasons : List (List GameRec))
    (hmiss : useCache (load_cached_logs now entry) today = false) :
    (get_player_logs_model now today entry seasons).1 =
      fetch_player_logs seasons ∧
    (get_player_logs_model now today entry seasons).2 =
      (if fetch_player_logs seasons = [] then none
        else some (fetch_player_logs seasons)) := by
  constructor <;> simp [get_player_logs_model, hmiss]

/-- Witness for C6 amended: a miss with a one-game fetch result, which is
returned and written back. -/
theorem writeback_only_nonempty_witness :
    (get_player_logs_model 0 0 none [[⟨1, 30, 10, 5, 3, 1, 1, 0⟩]]).1 =
      fetch_player_logs [[⟨1, 30, 10, 5, 3, 1, 1, 0⟩]] ∧
    (get_player_logs_model 0 0 none [[⟨1, 30, 10, 5, 3, 1, 1, 0⟩]]).2 =
      (if fetch_player_logs [[⟨1, 30, 10, 5, 3, 1, 1, 0⟩]] = [] then none
        else some (fetch_player_logs [[⟨1, 30, 10, 5, 3, 1, 1, 0⟩]])) :=
  writeback_only_nonempty 0 0 none [[⟨1, 30, 10, 5, 3, 1, 1, 0⟩]] (by decide)

/-! ## Fetch-failure degradation (get_last_n_games of
nba_trends_parlays_final.py) -/

/-- Function load_cache of nba_trends_parlays_final.py: the stored frame
when the file exists and parses, otherwise an empty frame (every exception
is swallowed). -/
def load_cache (file : Option (List GameRec)) : List GameRec :=
  match file with
  | none => []
  | some l => l

/-- Retry loop of get_last_n_games: up to three attempts; a successful
attempt saves the cache and returns the first n rows; after the last
failure the function returns whatever load_cache yields, without
truncation and regardless of staleness. -/
def tryFetch (file : Option (List GameRec)) (n : Nat) :
    List (Option (List GameRec)) → List GameRec
  | [] => load_cache file
  | some logs :: _ => logs.take n
  | none :: rest => tryFetch file n rest

/-- Function get_last_n_games of nba_trends_parlays_final.py: a fresh
cache file short-circuits, an unmatched player name gives an empty frame,
otherwise the retry loop runs.  The attempts list holds the outcome of
each network attempt (none is a raised exception). -/
def get_last_n_games (cacheValid : Bool) (file : Option (List GameRec))
    (matched : Bool) (attempts : List (Option (List GameRec))) (n : Nat) :
    List GameRec :=
  if cacheValid then (load_cache file).take n
  else if matched = false then []
  else tryFetch file n attempts

/-- C7: when the cache is not fresh and all three fetch attempts fail, the
loader returns the stale cached frame when a cache file exists and the
empty frame when none does; the function is total, so no exception reaches
the caller. -/
theorem get_last_n_games_degrades (file : Option (List GameRec)) (n : Nat) :
    get_last_n_games false file true [none, none, none] n = load_cache file ∧
    (∀ l : List GameRec, file = some l →
      get_last_n_games false file true [none, none, none] n = l) ∧
    (file = none →
      get_last_n_games false file true [none, none, none] n = []) := by
  refine ⟨rfl, ?_, ?_⟩
  · intro l hl
    rw [hl]
    rfl
  · intro hl
    rw [hl]
    rfl

/-- Witness for C7: a stale one-game cache file is returned as is after
three failed attempts, and a missing file yields the empty frame. -/
theorem get_last_n_games_degrades_witness :
    get_last_n_games false (some [⟨3, 30, 10, 5, 3, 1, 1, 0⟩]) true
      [none, none, none] 20 = [⟨3, 30, 10, 5, 3, 1, 1, 0⟩] ∧
    get_last_n_games false none true [none, none, none] 20 = [] :=
  ⟨(get_last_n_games_degrades (some [⟨3, 30, 10, 5, 3, 1, 1, 0⟩]) 20).2.1
      [⟨3, 30, 10, 5, 3, 1, 1, 0⟩] rfl,
    (get_last_n_games_degrades none 20).2.2 rfl⟩

/-! ## Odds line selection (pick_highest_alt_or_best_standard of
nba_trends_parlays_final.py) -/

/-- Key of the odds lookup dict: (player_lower, market_key, point, side).
The player name is stored already normalized. -/
structure OddsKey where
  player : String
  market : String
  point : ℚ
  side : String
deriving DecidableEq

/-- Value of the odds lookup dict: american price, decimal price, book. -/
structure OddsVal where
  american : Int
  decimal : ℚ
  book : String
deriving DecidableEq

/-- Return dict of pick_highest_alt_or_best_standard. -/
structure BestLine where
  point : ℚ
  american : Int
  decimal : ℚ
  book : String
  used_market : String
deriving DecidableEq

/-- Stat labels produced by calculate_auto_thresholds. -/
inductive StatL
  | points | rebounds | assists | threes
deriving DecidableEq

/-- The MARKET_FOR_STAT table: (standard market key, alternate market
key). -/
def MARKET_FOR_STAT : StatL → String × String
  | StatL.points => ("player_points", "player_points_alt")
  | StatL.rebounds => ("player_rebounds", "player_rebounds_alt")
  | StatL.assists => ("player_assists", "player_assists_alt")
  | StatL.threes => ("player_three_points", "player_three_points_alt")

/-- Function threshold_to_over_point: a threshold of k maps to the Over
line k - 0.5. -/
def threshold_to_over_point (threshold : ℚ) : ℚ := threshold - 1 / 2

/-- The list comprehension selecting the over entries of one player and
one market from the lookup (the dict becomes an association list). -/
def marketEntries (pkey mk : String) (lookup : List (OddsKey × OddsVal)) :
    List (OddsKey × OddsVal) :=
  lookup.filter (fun kv =>
    decide (kv.1.player = pkey ∧ kv.1.market = mk ∧ kv.1.side = "over"))

/-- Sort order of the alternate branch: point descending (the script sorts
with reverse True on the point). -/
def altDesc (a b : OddsKey × OddsVal) : Prop := b.1.point ≤ a.1.point

instance : DecidableRel altDesc :=
  fun a b => inferInstanceAs (Decidable (b.1.point ≤ a.1.point))

instance : IsTotal (OddsKey × OddsVal) altDesc :=
  ⟨fun a b => le_total b.1.point a.1.point⟩

instance : IsTrans (OddsKey × OddsVal) altDesc :=
  ⟨fun _ _ _ h1 h2 => le_trans h2 h1⟩

/-- Tie-break flag of the standard branch sort key: 0 for a line at or
below the target, 1 above it. -/
def stdFlag (target : ℚ) (kv : OddsKey × OddsVal) : Nat :=
  if kv.1.point ≤ target then 0 else 1

/-- Sort order of the standard branch: the Python key tuple
(absolute distance to target, flag), compared lexicographically. -/
def stdKeyLe (target : ℚ) (a b : OddsKey × OddsVal) : Prop :=
  |a.1.point - target| < |b.1.point - target| ∨
    (|a.1.point - target| = |b.1.point - target| ∧
      stdFlag target a ≤ stdFlag target b)

instance (target : ℚ) : DecidableRel (stdKeyLe target) :=
  fun a b => inferInstanceAs (Decidable
    (|a.1.point - target| < |b.1.point - target| ∨
      (|a.1.point - target| = |b.1.point - target| ∧
        stdFlag target a ≤ stdFlag target b)))

instance (target : ℚ) : IsTotal (OddsKey × OddsVal) (stdKeyLe target) where
  total a b := by
    rcases lt_trichotomy (|a.1.point - target|) (|b.1.point - target|) with
      h | h | h
    · exact Or.inl (Or.inl h)
    · rcases Nat.le_total (stdFlag target a) (stdFlag target b) with hf | hf
      · exact Or.inl (Or.inr ⟨h, hf⟩)
      · exact Or.inr (Or.inr ⟨h.symm, hf⟩)
    · exact Or.inr (Or.inl h)

instance (target : ℚ) : IsTrans (OddsKey × OddsVal) (stdKeyLe target) where
  trans a b c hab hbc := by
    rcases hab with h1 | ⟨h1, f1⟩
    · rcases hbc with h2 | ⟨h2, _⟩
      · exact Or.inl (lt_trans h1 h2)
      · exact Or.inl (h2 ▸ h1)
    · rcases hbc with h2 | ⟨h2, f2⟩
      · exact Or.inl (h1 ▸ h2)
      · exact Or.inr ⟨h1.trans h2, le_trans f1 f2⟩

/-- Function pick_highest_alt_or_best_standard: when the alternate market
for the stat was returned and has over entries for the player, take the
entry with the highest point (its point truncated to an integer, which for
the positive ladder values equals the floor); otherwise, when the standard
market was returned and has entries, take the entry whose key tuple
(distance to target, above-target flag) is smallest; otherwise None. -/
def pick_highest_alt_or_best_standard (pkey : String) (stat : StatL)
    (threshold : ℚ) (lookup : List (OddsKey × OddsVal))
    (returnedMarkets : List String) : Option BestLine :=
  let stdKey := (MARKET_FOR_STAT stat).1
  let altKey := (MARKET_FOR_STAT stat).2
  let best1 : Option BestLine :=
    if altKey ∈ returnedMarkets then
      match (marketEntries pkey altKey lookup).insertionSort altDesc with
      | [] => none
      | kv :: _ => some ⟨(⌊kv.1.point⌋ : ℚ), kv.2.american, kv.2.decimal,
          kv.2.book, altKey⟩
    else none
  match best1 with
  | some b => some b
  | none =>
      if stdKey ∈ returnedMarkets then
        match (marketEntries pkey stdKey lookup).insertionSort
            (stdKeyLe (threshold_to_over_point threshold)) with
        | [] => none
        | kv :: _ => some ⟨kv.1.point, kv.2.american, kv.2.decimal,
            kv.2.book, stdKey⟩
      else none

/-- Membership in a market selection gives membership in the lookup and
the market key. -/
theorem marketEntries_mem {pkey mk : String}
    {lookup : List (OddsKey × OddsVal)} {kv : OddsKey × OddsVal}
    (h : kv ∈ marketEntries pkey mk lookup) :
    kv ∈ lookup ∧ kv.1.market = mk := by
  have h2 := List.mem_filter.mp h
  exact ⟨h2.1, (of_decide_eq_true h2.2).2.1⟩

/-- The head of an insertion sort is a member that is below every member
in the sort order. -/
theorem insertionSort_head_min {α : Type} (r : α → α → Prop) [DecidableRel r]
    [IsTotal α r] [IsTrans α r] (l : List α) (a : α) (rest : List α)
    (h : l.insertionSort r = a :: rest) : a ∈ l ∧ ∀ x ∈ l, r a x := by
  have hsorted := List.sorted_insertionSort r l
  rw [h] at hsorted
  have hmem : a ∈ l := by
    have : a ∈ l.insertionSort r := by
      rw [h]
      exact List.mem_cons_self a rest
    exact (List.mem_insertionSort r).mp this
  refine ⟨hmem, ?_⟩
  intro x hx
  have hx2 : x ∈ a :: rest := by
    rw [← h]
    exact (List.mem_insertionSort r).mpr hx
  rcases List.mem_cons.mp hx2 with he | ht
  · subst he
    rcases total_of r x x with h' | h' <;> exact h'
  · exact (List.pairwise_cons.mp hsorted).1 x ht

/-- An empty insertion sort comes from an empty list. -/
theorem insertionSort_eq_nil {α : Type} (r : α → α → Prop) [DecidableRel r]
    (l : List α) (h : l.insertionSort r = []) : l = [] := by
  have hp := List.perm_insertionSort r l
  rw [h] at hp
  exact hp.symm.eq_nil

/-- C9: under the invariant of the odds fetch (every market present in the
lookup is in the returned set), whenever any alternate-market over entry
exists for the player and stat, the selection returns the alternate entry
with the highest point (truncated to an integer); only when none exists
does it return the standard-market entry nearest the target threshold
minus one half, preferring entries at or below the target on distance
ties; and with no entries in either market it returns None. -/
theorem pick_line_policy (pkey : String) (stat : StatL) (threshold : ℚ)
    (lookup : List (OddsKey × OddsVal)) (returnedMarkets : List String)
    (hinv : ∀ kv ∈ lookup, kv.1.market ∈ returnedMarkets) :
    (marketEntries pkey (MARKET_FOR_STAT stat).2 lookup ≠ [] →
      ∃ kv ∈ marketEntries pkey (MARKET_FOR_STAT stat).2 lookup,
        (∀ kw ∈ marketEntries pkey (MARKET_FOR_STAT stat).2 lookup,
          kw.1.point ≤ kv.1.point) ∧
        pick_highest_alt_or_best_standard pkey stat threshold lookup
            returnedMarkets =
          some ⟨(⌊kv.1.point⌋ : ℚ), kv.2.american, kv.2.decimal, kv.2.book,
            (MARKET_FOR_STAT stat).2⟩) ∧
    (marketEntries pkey (MARKET_FOR_STAT stat).2 lookup = [] →
      marketEntries pkey (MARKET_FOR_STAT stat).1 lookup ≠ [] →
      ∃ kv ∈ marketEntries pkey (MARKET_FOR_STAT stat).1 lookup,
        (∀ kw ∈ marketEntries pkey (MARKET_FOR_STAT stat).1 lookup,
          |kv.1.point - threshold_to_over_point threshold| ≤
            |kw.1.point - threshold_to_over_point threshold| ∧
          (|kv.1.point - threshold_to_over_point threshold| =
              |kw.1.point - threshold_to_over_point threshold| →
            kw.1.point ≤ threshold_to_over_point threshold →
            kv.1.point ≤ threshold_to_over_point threshold)) ∧
        pick_highest_alt_or_best_standard pkey stat threshold lookup
            returnedMarkets =
          some ⟨kv.1.point, kv.2.american, kv.2.decimal, kv.2.book,
            (MARKET_FOR_STAT stat).1⟩) ∧
    (marketEntries pkey (MARKET_FOR_STAT stat).2 lookup = [] →
      marketEntries pkey (MARKET_FOR_STAT stat).1 lookup = [] →
      pick_highest_alt_or_best_standard pkey stat threshold lookup
        returnedMarkets = none) := by
  refine ⟨?_, ?_, ?_⟩
  · intro hne
    obtain ⟨kv0, hkv0⟩ := List.exists_mem_of_ne_nil _ hne
    obtain ⟨hmem0, hmkt0⟩ := marketEntries_mem hkv0
    have haltmem : (MARKET_FOR_STAT stat).2 ∈ returnedMarkets :=
      hmkt0 ▸ hinv kv0 hmem0
    cases hsort : (marketEntries pkey (MARKET_FOR_STAT stat).2
        lookup).insertionSort altDesc with
    | nil => exact absurd (insertionSort_eq_nil _ _ hsort) hne
    | cons kv rest =>
        obtain ⟨hkvmem, hmax⟩ := insertionSort_head_min altDesc _ kv rest hsort
        refine ⟨kv, hkvmem, fun kw hkw => hmax kw hkw, ?_⟩
        simp only [pick_highest_alt_or_best_standard]
        rw [if_pos haltmem, hsort]
  · intro halt hne
    obtain ⟨kv0, hkv0⟩ := List.exists_mem_of_ne_nil _ hne
    obtain ⟨hmem0, hmkt0⟩ := marketEntries_mem hkv0
    have hstdmem : (MARKET_FOR_STAT stat).1 ∈ returnedMarkets :=
      hmkt0 ▸ hinv kv0 hmem0
    cases hsort : (marketEntries pkey (MARKET_FOR_STAT stat).1
        lookup).insertionSort
        (stdKeyLe (threshold_to_over_point threshold)) with
    | nil => exact absurd (insertionSort_eq_nil _ _ hsort) hne
    | cons kv rest =>
        obtain ⟨hkvmem, hmin⟩ := insertionSort_head_min
          (stdKeyLe (threshold_to_over_point threshold)) _ kv rest hsort
        refine ⟨kv, hkvmem, ?_, ?_⟩
        · intro kw hkw
          rcases hmin kw hkw with hlt | ⟨heq, hflag⟩
          · exact ⟨le_of_lt hlt, fun heq' _ => absurd (heq' ▸ hlt)
              (lt_irrefl _)⟩
          · refine ⟨le_of_eq heq, fun _ hkwle => ?_⟩
            by_contra hkvle
            have h1 : stdFlag (threshold_to_over_point threshold) kv = 1 := by
              simp [stdFlag, hkvle]
            have h0 : stdFlag (threshold_to_over_point threshold) kw = 0 := by
              simp [stdFlag, hkwle]
            rw [h1, h0] at hflag
            exact Nat.not_succ_le_zero 0 hflag
        · simp only [pick_highest_alt_or_best_standard]
          rw [halt]
          by_cases hin : (MARKET_FOR_STAT stat).2 ∈ returnedMarkets
          · rw [if_pos hin]
            simp only [List.insertionSort]
            rw [if_pos hstdmem, hsort]
          · rw [if_neg hin]
            rw [if_pos hstdmem, hsort]
  · intro halt hstd
    simp only [pick_highest_alt_or_best_standard]
    rw [halt, hstd]
    by_cases hin : (MARKET_FOR_STAT stat).2 ∈ returnedMarkets <;>
      by_cases hin2 : (MARKET_FOR_STAT stat).1 ∈ returnedMarkets <;>
      simp [hin, hin2, List.insertionSort]

/-- Witness for C9: a lookup holding two alternate over entries for one
player (points 20 and 25); the selection returns the alternate entry with
the highest point. -/
theorem pick_line_policy_witness :
    ∃ kv ∈ marketEntries "joe" (MARKET_FOR_STAT StatL.points).2
        [(⟨"joe", "player_points_alt", 20, "over"⟩,
            ⟨110, 21 / 10, "FanDuel"⟩),
          (⟨"joe", "player_points_alt", 25, "over"⟩, ⟨200, 3, "FanDuel"⟩)],
      (∀ kw ∈ marketEntries "joe" (MARKET_FOR_STAT StatL.points).2
          [(⟨"joe", "player_points_alt", 20, "over"⟩,
              ⟨110, 21 / 10, "FanDuel"⟩),
            (⟨"joe", "player_points_alt", 25, "over"⟩, ⟨200, 3, "FanDuel"⟩)],
        kw.1.point ≤ kv.1.point) ∧
      pick_highest_alt_or_best_standard "joe" StatL.points 30
          [(⟨"joe", "player_points_alt", 20, "over"⟩,
              ⟨110, 21 / 10, "FanDuel"⟩),
            (⟨"joe", "player_points_alt", 25, "over"⟩, ⟨200, 3, "FanDuel"⟩)]
          ["player_points_alt"] =
        some ⟨(⌊kv.1.point⌋ : ℚ), kv.2.american, kv.2.decimal, kv.2.book,
          (MARKET_FOR_STAT StatL.points).2⟩ :=
  (pick_line_policy "joe" StatL.points 30
      [(⟨"joe", "player_points_alt", 20, "over"⟩, ⟨110, 21 / 10, "FanDuel"⟩),
        (⟨"joe", "player_points_alt", 25, "over"⟩, ⟨200, 3, "FanDuel"⟩)]
      ["player_points_alt"] (by decide)).1 (by decide)

/-- Witness for C8: the empty window at the points category. -/
theorem scanner_empty_window_none_witness :
    best_hit [] Cat.PTS = none ∧ best_line [] Cat.PTS = none :=
  scanner_empty_window_none Cat.PTS

/-- Witness for C4 amended: a fresh entry whose newest game is today is a
hit, returned without a write-back. -/
theorem get_player_logs_hit_iff_witness :
    (get_player_logs_model 1 0 (some ⟨0, [⟨0, 30, 10, 5, 3, 1, 1, 0⟩]⟩) [] =
        (load_cached_logs 1 (some ⟨0, [⟨0, 30, 10, 5, 3, 1, 1, 0⟩]⟩), none) ∧
      load_cached_logs 1 (some ⟨0, [⟨0, 30, 10, 5, 3, 1, 1, 0⟩]⟩) ≠ []) := by
  refine (get_player_logs_hit_iff 1 0
    (some ⟨0, [⟨0, 30, 10, 5, 3, 1, 1, 0⟩]⟩) []).mpr ⟨?_, ?_⟩
  · exact ⟨⟨0, [⟨0, 30, 10, 5, 3, 1, 1, 0⟩]⟩, rfl,
      by norm_num [CACHE_MAX_AGE_HOURS], by decide⟩
  · refine ⟨0, ?_, le_refl 0⟩
    have hload : load_cached_logs 1 (some ⟨0, [⟨0, 30, 10, 5, 3, 1, 1, 0⟩]⟩) =
        [⟨0, 30, 10, 5, 3, 1, 1, 0⟩] := by
      norm_num [load_cached_logs, CACHE_MAX_AGE_HOURS]
    rw [hload]
    decide
